import Mathlib

/-!
Verification of the landhubmanager frontend order-status and geometry code.

The definitions below are a shallow embedding of
`src/frontend/src/services/plotsManage.ts` (PlotManagementService) and of the
geometry helpers and the order-submission handler of the MapView component.
TypeScript string-literal unions become inductive types or strings, JS numbers
used by the geometry code become rationals (with a separate constructor for
non-finite values where the code tests for them), and the mutable service
state is passed explicitly.
-/

/-- Order status union type from plotsManage.ts: `pending | approved | rejected`. -/
inductive OrderStatus where
  | pending
  | approved
  | rejected
deriving DecidableEq

/-- Record returned by `GET /api/plots/ordered` (interface OrderedPlot). -/
structure OrderedPlot where
  plot_id : String
  customer_name : String
  order_status : OrderStatus
  order_date : String
deriving DecidableEq

/-- Plot record. The `types/land.ts` declaration file is not among the sources;
the fields here are the ones the verified functions read (`id`, `status`) plus
representative carried data observed at the use sites (`plot_code`,
`area_hectares`), so that preservation of the other fields is expressible.
`status` is a plain string because the code compares it against string
literals such as "available". -/
structure Plot where
  id : String
  plot_code : String
  area_hectares : ℚ
  status : String
deriving DecidableEq

/-- interface PlotWithOrderStatus extends Plot: the enrichment overlay. -/
structure PlotWithOrderStatus extends Plot where
  hasActiveOrder : Bool
  orderStatus : Option OrderStatus
  orderDate : Option String
  customerName : Option String
deriving DecidableEq

/-- Lookup in `new Map(orderedPlots.map(op => [op.plot_id, op]))`: insertion in
list order, a later entry with the same key overwrites an earlier one, so the
lookup returns the last matching record. -/
def ordersById (ops : List OrderedPlot) (key : String) : Option OrderedPlot :=
  ops.foldl (fun acc op => if op.plot_id = key then some op else acc) none

/-- `getPlotStatusFromOrder` from plotsManage.ts. -/
def getPlotStatusFromOrder (orderStatus : OrderStatus) : String :=
  match orderStatus with
  | .pending => "pending"
  | .approved => "taken"
  | .rejected => "available"

/-- The per-plot body of the `plots.map` inside `enrichPlotsWithOrderStatus`. -/
def enrichPlot (ops : List OrderedPlot) (plot : Plot) : PlotWithOrderStatus :=
  match ordersById ops plot.id with
  | some orderInfo =>
      { toPlot := { plot with status := getPlotStatusFromOrder orderInfo.order_status }
        hasActiveOrder := true
        orderStatus := some orderInfo.order_status
        orderDate := some orderInfo.order_date
        customerName := some orderInfo.customer_name }
  | none =>
      { toPlot := plot
        hasActiveOrder := false
        orderStatus := none
        orderDate := none
        customerName := none }

/-- The value `await this.getOrderedPlots()` hands to the enrichment code is
untyped network data: either an actual array of ordered-plot records, or
anything else, in which case the `Array.isArray` guard throws and control
reaches the catch block. -/
inductive FetchedOrdered where
  | arr (ops : List OrderedPlot)
  | notArr
deriving DecidableEq

/-- `enrichPlotsWithOrderStatus` from plotsManage.ts, with the result of the
internal `getOrderedPlots()` call passed explicitly. The `notArr` case is the
catch path: every plot is returned with hasActiveOrder := false. -/
def enrichPlotsWithOrderStatus (fetched : FetchedOrdered) (plots : List Plot) :
    List PlotWithOrderStatus :=
  match fetched with
  | .arr ops => plots.map (enrichPlot ops)
  | .notArr =>
      plots.map (fun plot =>
        { toPlot := plot
          hasActiveOrder := false
          orderStatus := none
          orderDate := none
          customerName := none })

/-- `shouldShowOrderButton` from plotsManage.ts. -/
def shouldShowOrderButton (plot : PlotWithOrderStatus) : Bool :=
  if plot.hasActiveOrder then
    decide (plot.orderStatus = some OrderStatus.rejected)
  else
    decide (plot.status = "available")

/-- `getOrderButtonText` from plotsManage.ts. -/
def getOrderButtonText (plot : PlotWithOrderStatus) : String :=
  if plot.hasActiveOrder then
    match plot.orderStatus with
    | some .pending => "Order Pending"
    | some .approved => "Plot Taken"
    | some .rejected => "Reorder Plot"
    | none => "Order This Plot"
  else if plot.status = "available" then "Order This Plot" else "Not Available"

lemma ordersById_foldl_of_no_match (ops : List OrderedPlot) (key : String)
    (h : ∀ op ∈ ops, op.plot_id ≠ key) (acc : Option OrderedPlot) :
    ops.foldl (fun acc op => if op.plot_id = key then some op else acc) acc = acc := by
  induction ops generalizing acc with
  | nil => rfl
  | cons op rest ih =>
      simp only [List.foldl_cons]
      rw [if_neg (h op (List.mem_cons_self op rest))]
      exact ih (fun o ho => h o (List.mem_cons_of_mem op ho)) acc

lemma ordersById_eq_none (ops : List OrderedPlot) (key : String)
    (h : ∀ op ∈ ops, op.plot_id ≠ key) : ordersById ops key = none :=
  ordersById_foldl_of_no_match ops key h none

lemma ordersById_foldl_of_match (ops : List OrderedPlot) (key : String)
    (acc : Option OrderedPlot) (h : ∃ op ∈ ops, op.plot_id = key) :
    ∃ op ∈ ops, op.plot_id = key ∧
      ops.foldl (fun acc op => if op.plot_id = key then some op else acc) acc
        = some op := by
  induction ops generalizing acc with
  | nil => obtain ⟨op, hmem, _⟩ := h; exact absurd hmem (List.not_mem_nil op)
  | cons op rest ih =>
      by_cases hrest : ∃ o ∈ rest, o.plot_id = key
      · obtain ⟨o, homem, hokey, hofold⟩ :=
          ih (if op.plot_id = key then some op else acc) hrest
        exact ⟨o, List.mem_cons_of_mem op homem, hokey, by
          simpa only [List.foldl_cons] using hofold⟩
      · push_neg at hrest
        have hkey : op.plot_id = key := by
          obtain ⟨o, homem, hokey⟩ := h
          rcases List.mem_cons.mp homem with rfl | hmem
          · exact hokey
          · exact absurd hokey (hrest o hmem)
        refine ⟨op, List.mem_cons_self op rest, hkey, ?_⟩
        simp only [List.foldl_cons]
        rw [if_pos hkey]
        exact ordersById_foldl_of_no_match rest key hrest (some op)

lemma ordersById_eq_some (ops : List OrderedPlot) (key : String)
    (h : ∃ op ∈ ops, op.plot_id = key) :
    ∃ op ∈ ops, op.plot_id = key ∧ ordersById ops key = some op :=
  ordersById_foldl_of_match ops key none h

/-- C1: for every plot in the input list of enrichPlotsWithOrderStatus, if an
ordered-plot record with a matching plot_id exists, the output record has
hasActiveOrder = true and carries the orderStatus, orderDate and customerName
of a matching record, with status the image of the order status under
pending to "pending", approved to "taken", rejected to "available"; every
plot without a matching record gets hasActiveOrder = false and retains its
original status and fields. -/
theorem claim_C1_enrichment (ops : List OrderedPlot) (plots : List Plot)
    (i : Nat) (p : Plot) (e : PlotWithOrderStatus)
    (hp : plots[i]? = some p)
    (he : (enrichPlotsWithOrderStatus (FetchedOrdered.arr ops) plots)[i]? = some e) :
    ((∃ op ∈ ops, op.plot_id = p.id) →
       e.hasActiveOrder = true ∧
       ∃ op ∈ ops, op.plot_id = p.id ∧
         e.toPlot = { p with status := getPlotStatusFromOrder op.order_status } ∧
         e.orderStatus = some op.order_status ∧
         e.orderDate = some op.order_date ∧
         e.customerName = some op.customer_name) ∧
    ((∀ op ∈ ops, op.plot_id ≠ p.id) →
       e.hasActiveOrder = false ∧ e.toPlot = p) := by
  have hmap : (enrichPlotsWithOrderStatus (FetchedOrdered.arr ops) plots)[i]?
      = (plots[i]?).map (enrichPlot ops) := by
    simp [enrichPlotsWithOrderStatus]
  rw [hmap, hp] at he
  have he' : e = enrichPlot ops p := by
    simpa using he.symm
  subst he'
  constructor
  · intro hex
    obtain ⟨op, hmem, hkey, heq⟩ := ordersById_eq_some ops p.id hex
    refine ⟨?_, op, hmem, hkey, ?_, ?_, ?_, ?_⟩ <;> simp [enrichPlot, heq]
  · intro hnone
    have heqn := ordersById_eq_none ops p.id hnone
    simp [enrichPlot, heqn]

/-- Witness for C1 at a concrete input: one approved order on plot p1. -/
theorem claim_C1_enrichment_witness :
    ((enrichPlotsWithOrderStatus
        (FetchedOrdered.arr [⟨"p1", "Alice", OrderStatus.approved, "2024-01-01"⟩])
        [⟨"p1", "PC1", 1, "available"⟩])[0]?
      = some ⟨⟨"p1", "PC1", 1, "taken"⟩, true, some OrderStatus.approved,
          some "2024-01-01", some "Alice"⟩) ∧
    (⟨⟨"p1", "PC1", 1, "taken"⟩, true, some OrderStatus.approved,
        some "2024-01-01", some "Alice"⟩ : PlotWithOrderStatus).hasActiveOrder = true := by
  refine ⟨by rfl, ?_⟩
  exact (((claim_C1_enrichment
    [⟨"p1", "Alice", OrderStatus.approved, "2024-01-01"⟩]
    [⟨"p1", "PC1", 1, "available"⟩] 0 ⟨"p1", "PC1", 1, "available"⟩
    ⟨⟨"p1", "PC1", 1, "taken"⟩, true, some OrderStatus.approved,
      some "2024-01-01", some "Alice"⟩ (by rfl) (by rfl)).1)
    ⟨⟨"p1", "Alice", OrderStatus.approved, "2024-01-01"⟩, by simp, rfl⟩).1

/-- C2: shouldShowOrderButton is false for a plot with an active order unless
that order status is rejected, and for a plot without an active order it is
true exactly when the plot status is "available". -/
theorem claim_C2_order_button (plot : PlotWithOrderStatus) :
    (plot.hasActiveOrder = true →
      (shouldShowOrderButton plot = true ↔ plot.orderStatus = some OrderStatus.rejected)) ∧
    (plot.hasActiveOrder = false →
      (shouldShowOrderButton plot = true ↔ plot.status = "available")) := by
  constructor
  · intro h
    simp [shouldShowOrderButton, h]
  · intro h
    simp [shouldShowOrderButton, h]

/-- Witness for C2: a plot with status "sold" and no active order gets no
order button. -/
theorem claim_C2_order_button_witness :
    shouldShowOrderButton ⟨⟨"p2", "PC2", 1, "sold"⟩, false, none, none, none⟩ = false := by
  have h := (claim_C2_order_button
    ⟨⟨"p2", "PC2", 1, "sold"⟩, false, none, none, none⟩).2 rfl
  exact Bool.eq_false_iff.mpr (fun hb => absurd (h.mp hb) (by decide))

/-- Order form data; the submission handler reads first_name and last_name. -/
structure OrderData where
  first_name : String
  last_name : String
deriving DecidableEq

/-- The mutable cache fields of PlotManagementService: orderedPlotsCache and
cacheTimestamp (milliseconds). -/
structure CacheState where
  orderedPlotsCache : List OrderedPlot
  cacheTimestamp : Nat
deriving DecidableEq

/-- `invalidateCache` from plotsManage.ts: clears the cache unconditionally. -/
def invalidateCache (_c : CacheState) : CacheState :=
  { orderedPlotsCache := [], cacheTimestamp := 0 }

/-- The component state touched by handleOrderSubmit in the MapView component,
together with the service cache it invalidates on success. -/
structure MapViewState where
  plots : List PlotWithOrderStatus
  selectedPlot : Option PlotWithOrderStatus
  orderError : Option String
  isModalOpen : Bool
  cache : CacheState
deriving DecidableEq

/-- `handleOrderSubmit` from the MapView component. The awaited
`plotService.createOrder` outcome is passed explicitly: `Except.error msg`
is a rejected promise carrying the error message, `Except.ok ()` a
successful submission. `nowIso` stands for `new Date().toISOString()`.
The failure branch replays the optimistic update and then restores the
snapshot taken before it, exactly as the source does. -/
def handleOrderSubmit (st : MapViewState) (orderData : OrderData) (nowIso : String)
    (createOrderResult : Except String Unit) : MapViewState :=
  match st.selectedPlot with
  | none => { st with orderError := some "No plot selected." }
  | some selectedPlot =>
      let st1 := { st with orderError := none }
      let originalPlots := st1.plots
      let optimisticPlots := st1.plots.map (fun p =>
        if p.id = selectedPlot.id then
          { toPlot := { p.toPlot with status := "pending" }
            hasActiveOrder := true
            orderStatus := some OrderStatus.pending
            orderDate := some nowIso
            customerName := some (orderData.first_name ++ " " ++ orderData.last_name) }
        else p)
      let st2 := { st1 with plots := optimisticPlots }
      match createOrderResult with
      | .ok _ =>
          { st2 with cache := invalidateCache st2.cache,
                     selectedPlot := none,
                     isModalOpen := false }
      | .error msg =>
          { st2 with plots := originalPlots,
                     orderError := some ("Failed to submit order: " ++ msg) }

/-- C3: when order submission fails after the optimistic update, the plot list
is restored to exactly the pre-update list, an error is surfaced, and neither
the cache nor the dialog state changes; the cache is invalidated and the
dialog closed on success. -/
theorem claim_C3_order_submit (st : MapViewState) (orderData : OrderData)
    (nowIso msg : String) (sel : PlotWithOrderStatus)
    (hsel : st.selectedPlot = some sel) :
    ((handleOrderSubmit st orderData nowIso (Except.error msg)).plots = st.plots ∧
     (handleOrderSubmit st orderData nowIso (Except.error msg)).orderError
        = some ("Failed to submit order: " ++ msg) ∧
     (handleOrderSubmit st orderData nowIso (Except.error msg)).cache = st.cache ∧
     (handleOrderSubmit st orderData nowIso (Except.error msg)).isModalOpen
        = st.isModalOpen) ∧
    ((handleOrderSubmit st orderData nowIso (Except.ok ())).cache
        = invalidateCache st.cache ∧
     (handleOrderSubmit st orderData nowIso (Except.ok ())).isModalOpen = false ∧
     (handleOrderSubmit st orderData nowIso (Except.ok ())).selectedPlot = none) := by
  simp [handleOrderSubmit, hsel]

/-- Witness for C3 at a concrete state with one selected plot. -/
theorem claim_C3_order_submit_witness :
    (handleOrderSubmit
      { plots := [⟨⟨"p1", "PC1", 1, "available"⟩, false, none, none, none⟩]
        selectedPlot := some ⟨⟨"p1", "PC1", 1, "available"⟩, false, none, none, none⟩
        orderError := none
        isModalOpen := true
        cache := { orderedPlotsCache := [⟨"p9", "Bob", OrderStatus.pending, "d"⟩]
                   cacheTimestamp := 5 } }
      ⟨"Ann", "Lee"⟩ "2024-02-02" (Except.error "boom")).plots
      = [⟨⟨"p1", "PC1", 1, "available"⟩, false, none, none, none⟩] :=
  (claim_C3_order_submit
    { plots := [⟨⟨"p1", "PC1", 1, "available"⟩, false, none, none, none⟩]
      selectedPlot := some ⟨⟨"p1", "PC1", 1, "available"⟩, false, none, none, none⟩
      orderError := none
      isModalOpen := true
      cache := { orderedPlotsCache := [⟨"p9", "Bob", OrderStatus.pending, "d"⟩]
                 cacheTimestamp := 5 } }
    ⟨"Ann", "Lee"⟩ "2024-02-02" "boom"
    ⟨⟨"p1", "PC1", 1, "available"⟩, false, none, none, none⟩ rfl).1.1

/-- `isCacheValid` from plotsManage.ts. The `Array.isArray` conjunct is always
true in this typed model, so only the timestamp window remains. Timestamps are
naturals (milliseconds); the JS subtraction is integer subtraction here. -/
def isCacheValid (c : CacheState) (now : Nat) : Bool :=
  decide ((now : ℤ) - (c.cacheTimestamp : ℤ) < 30000)

/-- Outcome of the awaited `fetch` inside getOrderedPlots. `failure` covers a
network rejection and a non-ok HTTP status (the code throws on the latter, and
both land in the catch block). `success payload` is an ok response;
`payload = none` models a JSON body without an ordered_plots array, for which
the code substitutes the empty list. -/
inductive FetchOutcome where
  | failure
  | success (payload : Option (List OrderedPlot))
deriving DecidableEq

/-- The sequential body of `getOrderedPlots` from plotsManage.ts: cache check,
then fetch, cache update on success, graceful fallback in the catch block.
Returns the result list and the updated cache state. The isLoading
single-flight machinery is modelled separately as a step relation below; the
`finally` clause only resets that flag. -/
def getOrderedPlots (c : CacheState) (now : Nat) (fetch : FetchOutcome) :
    List OrderedPlot × CacheState :=
  if isCacheValid c now then (c.orderedPlotsCache, c)
  else
    match fetch with
    | .success payload =>
        let orderedPlots := payload.getD []
        (orderedPlots, { orderedPlotsCache := orderedPlots, cacheTimestamp := now })
    | .failure =>
        (if c.orderedPlotsCache.length > 0 then c.orderedPlotsCache else [], c)

/-- C4: when the cache is stale and the fetch fails, getOrderedPlots returns
the last known cache contents when the cache is non-empty and the empty list
otherwise; it never propagates the error (it is a total function into plain
lists). -/
theorem claim_C4_fetch_failure (c : CacheState) (now : Nat)
    (hmiss : isCacheValid c now = false) :
    (c.orderedPlotsCache ≠ [] →
      (getOrderedPlots c now FetchOutcome.failure).1 = c.orderedPlotsCache) ∧
    (c.orderedPlotsCache = [] →
      (getOrderedPlots c now FetchOutcome.failure).1 = []) := by
  constructor <;> intro h <;>
    simp [getOrderedPlots, hmiss, h, List.length_pos, List.isEmpty_iff]

/-- Witness for C4: stale non-empty cache, failing fetch, cache served. -/
theorem claim_C4_fetch_failure_witness :
    (getOrderedPlots
      { orderedPlotsCache := [⟨"p1", "Alice", OrderStatus.pending, "d"⟩]
        cacheTimestamp := 0 } 40000 FetchOutcome.failure).1
      = [⟨"p1", "Alice", OrderStatus.pending, "d"⟩] :=
  (claim_C4_fetch_failure
    { orderedPlotsCache := [⟨"p1", "Alice", OrderStatus.pending, "d"⟩]
      cacheTimestamp := 0 } 40000 (by decide)).1 (by simp)

/-- C5: on the internal-error path (the fetched value is not an array, so the
guard throws into the catch block), enrichPlotsWithOrderStatus returns the
full input plot list, every plot with hasActiveOrder = false and all other
fields unchanged; being a total function it never throws. -/
theorem claim_C5_enrich_degrade (plots : List Plot) :
    (enrichPlotsWithOrderStatus FetchedOrdered.notArr plots).length = plots.length ∧
    ∀ (i : Nat) (p : Plot), plots[i]? = some p →
      (enrichPlotsWithOrderStatus FetchedOrdered.notArr plots)[i]?
        = some { toPlot := p, hasActiveOrder := false, orderStatus := none,
                 orderDate := none, customerName := none } := by
  constructor
  · simp [enrichPlotsWithOrderStatus]
  · intro i p hp
    simp [enrichPlotsWithOrderStatus, hp]

/-- Witness for C5 at a concrete one-plot list. -/
theorem claim_C5_enrich_degrade_witness :
    (enrichPlotsWithOrderStatus FetchedOrdered.notArr
        [⟨"p1", "PC1", 1, "available"⟩])[0]?
      = some ⟨⟨"p1", "PC1", 1, "available"⟩, false, none, none, none⟩ :=
  (claim_C5_enrich_degrade [⟨"p1", "PC1", 1, "available"⟩]).2 0
    ⟨"p1", "PC1", 1, "available"⟩ rfl

/-- A JS number as the geometry validation sees it: NaN, an infinity, or a
finite value (embedded as a rational). -/
inductive JSNum where
  | nan
  | posInf
  | negInf
  | fin (q : ℚ)
deriving DecidableEq

/-- A GeoJSON position: an array of numbers (possibly of the wrong length). -/
abbrev GeoPoint := List JSNum

/-- A linear ring: an array of positions. -/
abbrev GeoRing := List GeoPoint

/-- The closing tolerance 1e-10 used by the MapView geometry code. -/
def geoTol : ℚ := 1 / 10 ^ 10

/-- `isValidCoordinate` from the MapView component: an array with at least two
entries whose first two entries are finite numbers within minus 180.1 to 180.1
longitude and minus 90.1 to 90.1 latitude. A non-finite entry fails the
isFinite and isNaN checks. -/
def isValidCoordinate (coord : GeoPoint) : Bool :=
  match coord with
  | JSNum.fin lng :: JSNum.fin lat :: _ =>
      decide (-(1801 / 10 : ℚ) ≤ lng) && decide (lng ≤ 1801 / 10) &&
      decide (-(901 / 10 : ℚ) ≤ lat) && decide (lat ≤ 901 / 10)
  | _ => false

/-- Longitude clamp `Math.max(-180, Math.min(180, lng))`. -/
def clampLng (q : ℚ) : ℚ := max (-180) (min 180 q)

/-- Latitude clamp `Math.max(-90, Math.min(90, lat))`. -/
def clampLat (q : ℚ) : ℚ := max (-90) (min 90 q)

/-- `normalizeCoordinate` from the MapView component: clamps the first two
entries and returns a fresh two-entry position. In the source it is applied
only to coordinates that already passed isValidCoordinate, whose first two
entries are finite; the fallthrough branch is unreachable there. -/
def normalizeCoordinate (coord : GeoPoint) : GeoPoint :=
  match coord with
  | JSNum.fin lng :: JSNum.fin lat :: _ =>
      [JSNum.fin (clampLng lng), JSNum.fin (clampLat lat)]
  | _ => coord

/-- Numeric value of entry `i` of a position; the ring-closing code reads
entries 0 and 1 of positions that were just normalized, hence finite. -/
def coordVal (p : GeoPoint) (i : Nat) : ℚ :=
  match p.get? i with
  | some (JSNum.fin q) => q
  | _ => 0

/-- The ring-closing step: when the first and last position differ by more
than 1e-10 in either axis, the last position is overwritten with a copy of
the first. -/
def closeRing (ring : GeoRing) : GeoRing :=
  let first := ring.headD []
  let last := ring.getLastD []
  if geoTol < |coordVal first 0 - coordVal last 0| ∨
     geoTol < |coordVal first 1 - coordVal last 1| then
    ring.dropLast ++ [[JSNum.fin (coordVal first 0), JSNum.fin (coordVal first 1)]]
  else ring

/-- The in-place normalization loop over the positions of one ring: positions
are replaced by their normalized value until an invalid one is found, in which
case the loop stops and the remaining positions stay untouched. Returns the
loop outcome and the (possibly partially) mutated ring. -/
def normalizeRingPoints : GeoRing → Bool × GeoRing
  | [] => (true, [])
  | p :: rest =>
      if isValidCoordinate p then
        let r := normalizeRingPoints rest
        (r.1, normalizeCoordinate p :: r.2)
      else (false, p :: rest)

/-- The per-ring callback of `coordinates.every`: reject short rings, then
normalize every position and force-close the ring. Returns the boolean the
callback returns and the mutated ring. -/
def processRing (ring : GeoRing) : Bool × GeoRing :=
  if ring.length < 4 then (false, ring)
  else
    let r := normalizeRingPoints ring
    if r.1 then (true, closeRing r.2) else (false, r.2)

/-- `rings.every(ring => ...)` with its in-place mutation: rings after the
first failing ring are not touched. -/
def processRings : List GeoRing → Bool × List GeoRing
  | [] => (true, [])
  | r :: rest =>
      let pr := processRing r
      if pr.1 then
        let prs := processRings rest
        (prs.1, pr.2 :: prs.2)
      else (false, pr.2 :: rest)

/-- The per-polygon callback used for MultiPolygon coordinates: an empty
polygon is rejected, otherwise its rings are processed. -/
def processPolygons : List (List GeoRing) → Bool × List (List GeoRing)
  | [] => (true, [])
  | poly :: rest =>
      if poly.isEmpty then (false, poly :: rest)
      else
        let pr := processRings poly
        if pr.1 then
          let prs := processPolygons rest
          (prs.1, pr.2 :: prs.2)
        else (false, pr.2 :: rest)

/-- A GeoJSON-like Polygon or MultiPolygon geometry. The source function also
returns false for values that are not one of these two shapes; the claims
quantify over these two shapes only. -/
inductive Geometry where
  | polygon (coordinates : List GeoRing)
  | multiPolygon (coordinates : List (List GeoRing))
deriving DecidableEq

/-- `isValidGeometry` from the MapView component, with the mutation made
explicit: returns the boolean verdict together with the geometry as left
behind by the in-place normalization. -/
def isValidGeometry : Geometry → Bool × Geometry
  | .polygon coords =>
      if coords.isEmpty then (false, .polygon coords)
      else
        let pr := processRings coords
        (pr.1, .polygon pr.2)
  | .multiPolygon polys =>
      if polys.isEmpty then (false, .multiPolygon polys)
      else
        let pr := processPolygons polys
        (pr.1, .multiPolygon pr.2)

/-- The validity condition in the words of the spec: a ring is acceptable when
it has at least 4 points and every point passes the coordinate check. -/
def ringSpecOk (ring : GeoRing) : Bool :=
  decide (4 ≤ ring.length) && ring.all isValidCoordinate

/-- All rings of a geometry. -/
def geometryRings : Geometry → List GeoRing
  | .polygon coords => coords
  | .multiPolygon polys => polys.flatten

lemma normalizeRingPoints_fst (ring : GeoRing) :
    (normalizeRingPoints ring).1 = ring.all isValidCoordinate := by
  induction ring with
  | nil => rfl
  | cons p rest ih =>
      by_cases h : isValidCoordinate p = true
      · simp [normalizeRingPoints, h, ih]
      · simp [normalizeRingPoints, h]

lemma processRing_fst (ring : GeoRing) :
    (processRing ring).1 = ringSpecOk ring := by
  unfold processRing ringSpecOk
  by_cases h : ring.length < 4
  · simp [h, Nat.not_le.mpr h]
  · have h4 : 4 ≤ ring.length := Nat.not_lt.mp h
    by_cases hall : (normalizeRingPoints ring).1 = true
    · simp [h, hall, h4, ← normalizeRingPoints_fst, hall]
    · simp only [Bool.not_eq_true] at hall
      simp [h, hall, h4, ← normalizeRingPoints_fst]

lemma processRings_fst (rs : List GeoRing) :
    (processRings rs).1 = rs.all ringSpecOk := by
  induction rs with
  | nil => rfl
  | cons r rest ih =>
      by_cases h : (processRing r).1 = true
      · have hr : ringSpecOk r = true := by rw [← processRing_fst]; exact h
        simp [processRings, h, ih, hr]
      · simp only [Bool.not_eq_true] at h
        have hr : ringSpecOk r = false := by rw [← processRing_fst]; exact h
        simp [processRings, h, hr]

lemma processPolygons_fst (ps : List (List GeoRing)) :
    (processPolygons ps).1 = ps.all (fun poly => !poly.isEmpty && poly.all ringSpecOk) := by
  induction ps with
  | nil => rfl
  | cons poly rest ih =>
      by_cases hemp : poly.isEmpty = true
      · simp [processPolygons, hemp]
      · simp only [Bool.not_eq_true] at hemp
        by_cases h : (processRings poly).1 = true
        · have hr : poly.all ringSpecOk = true := by rw [← processRings_fst]; exact h
          simp [processPolygons, hemp, h, ih, hr]
        · simp only [Bool.not_eq_true] at h
          have hr : poly.all ringSpecOk = false := by rw [← processRings_fst]; exact h
          simp [processPolygons, hemp, h, hr]

/-- C6 counterexample: a Polygon with an empty coordinates array. Every ring
of it (vacuously) has at least 4 valid points, yet isValidGeometry returns
false, so validity is not equivalent to the per-ring condition alone. -/
theorem claim_C6_counterexample :
    ¬ (((isValidGeometry (Geometry.polygon [])).1 = true) ↔
        ∀ ring ∈ geometryRings (Geometry.polygon []), ringSpecOk ring = true) := by
  intro h
  have hfalse : (isValidGeometry (Geometry.polygon [])).1 = true :=
    h.mpr (by simp [geometryRings])
  simp [isValidGeometry] at hfalse

/-- C6 (amended): isValidGeometry returns true iff the coordinate array is
non-empty (and, for a MultiPolygon, every polygon is non-empty) and every
ring has at least 4 points all of which pass the coordinate check. -/
theorem claim_C6_geometry_validity (g : Geometry) :
    (isValidGeometry g).1 = true ↔
      (match g with
       | .polygon coords => coords ≠ []
       | .multiPolygon polys => polys ≠ [] ∧ ∀ poly ∈ polys, poly ≠ []) ∧
      ∀ ring ∈ geometryRings g, ringSpecOk ring = true := by
  cases g with
  | polygon coords =>
      by_cases hemp : coords = []
      · subst hemp
        simp [isValidGeometry, geometryRings]
      · have hne : coords.isEmpty = false := by
          simpa [List.isEmpty_iff] using hemp
        simp [isValidGeometry, hne, processRings_fst, geometryRings,
          List.all_eq_true, hemp]
  | multiPolygon polys =>
      by_cases hemp : polys = []
      · subst hemp
        simp [isValidGeometry, geometryRings]
      · have hne : polys.isEmpty = false := by
          simpa [List.isEmpty_iff] using hemp
        simp only [isValidGeometry, hne, Bool.false_eq_true, if_false,
          processPolygons_fst, List.all_eq_true, Bool.and_eq_true,
          Bool.not_eq_true', List.isEmpty_eq_false, geometryRings,
          List.mem_flatten, ne_eq, hemp, not_false_iff, true_and]
        constructor
        · intro h
          exact ⟨fun poly hp => (h poly hp).1, fun ring ⟨poly, hp, hr⟩ =>
            (h poly hp).2 ring hr⟩
        · intro ⟨h1, h2⟩ poly hp
          exact ⟨h1 poly hp, fun ring hr => h2 ring ⟨poly, hp, hr⟩⟩

/-- Witness for C6 (amended): a closed 4-point unit-square Polygon is valid. -/
theorem claim_C6_geometry_validity_witness :
    (isValidGeometry (Geometry.polygon
      [[[JSNum.fin 0, JSNum.fin 0], [JSNum.fin 1, JSNum.fin 0],
        [JSNum.fin 1, JSNum.fin 1], [JSNum.fin 0, JSNum.fin 0]]])).1 = true :=
  (claim_C6_geometry_validity (Geometry.polygon
      [[[JSNum.fin 0, JSNum.fin 0], [JSNum.fin 1, JSNum.fin 0],
        [JSNum.fin 1, JSNum.fin 1], [JSNum.fin 0, JSNum.fin 0]]])).mpr
    ⟨by simp, by
      intro ring hr
      simp only [geometryRings, List.mem_singleton] at hr
      subst hr
      simp only [ringSpecOk, isValidCoordinate, List.all_cons, List.all_nil,
        List.length_cons, List.length_nil, Bool.and_eq_true, decide_eq_true_eq]
      norm_num⟩

/-- The normalization the claim describes, written directly: clamp every
position to the valid longitude and latitude ranges, then force-close the
ring when first and last differ by more than 1e-10 in either axis. -/
def specNormalizeRing (ring : GeoRing) : GeoRing :=
  closeRing (ring.map normalizeCoordinate)

/-- The claimed whole-geometry normalization effect. -/
def specNormalizeGeometry : Geometry → Geometry
  | .polygon coords => .polygon (coords.map specNormalizeRing)
  | .multiPolygon polys =>
      .multiPolygon (polys.map (fun poly => poly.map specNormalizeRing))

lemma normalizeRingPoints_of_all (ring : GeoRing)
    (h : ring.all isValidCoordinate = true) :
    normalizeRingPoints ring = (true, ring.map normalizeCoordinate) := by
  induction ring with
  | nil => rfl
  | cons p rest ih =>
      simp only [List.all_cons, Bool.and_eq_true] at h
      simp [normalizeRingPoints, h.1, ih h.2]

lemma processRing_of_ok (ring : GeoRing) (h : ringSpecOk ring = true) :
    processRing ring = (true, specNormalizeRing ring) := by
  unfold ringSpecOk at h
  simp only [Bool.and_eq_true, decide_eq_true_eq] at h
  unfold processRing
  rw [if_neg (by omega : ¬ ring.length < 4)]
  rw [normalizeRingPoints_of_all ring h.2]
  simp [specNormalizeRing]

lemma processRings_of_ok (rs : List GeoRing) (h : rs.all ringSpecOk = true) :
    processRings rs = (true, rs.map specNormalizeRing) := by
  induction rs with
  | nil => rfl
  | cons r rest ih =>
      simp only [List.all_cons, Bool.and_eq_true] at h
      simp [processRings, processRing_of_ok r h.1, ih h.2]

lemma processPolygons_of_ok (ps : List (List GeoRing))
    (h : ps.all (fun poly => !poly.isEmpty && poly.all ringSpecOk) = true) :
    processPolygons ps = (true, ps.map (fun poly => poly.map specNormalizeRing)) := by
  induction ps with
  | nil => rfl
  | cons poly rest ih =>
      simp only [List.all_cons, Bool.and_eq_true, Bool.not_eq_true',
        List.isEmpty_eq_false] at h
      have hne : poly.isEmpty = false := by
        simp [List.isEmpty_eq_false, h.1.1]
      simp [processPolygons, hne, processRings_of_ok poly h.1.2, ih h.2]

/-- C10: when every ring of a Polygon or MultiPolygon passes validation,
isValidGeometry leaves behind (in the caller object) the geometry with every
position replaced by its clamped two-entry form and every ring whose last
position differs from its first by more than 1e-10 in either axis closed by
overwriting the last position with a copy of the first. -/
theorem claim_C10_mutation (g : Geometry) (h : (isValidGeometry g).1 = true) :
    (isValidGeometry g).2 = specNormalizeGeometry g := by
  cases g with
  | polygon coords =>
      by_cases hemp : coords.isEmpty = true
      · simp [isValidGeometry, hemp] at h
      · have hne : coords.isEmpty = false := Bool.not_eq_true _ ▸ by
          simpa using hemp
        have hall : coords.all ringSpecOk = true := by
          have := h
          simpa [isValidGeometry, hne, processRings_fst] using this
        simp [isValidGeometry, hne, processRings_of_ok coords hall,
          specNormalizeGeometry]
  | multiPolygon polys =>
      by_cases hemp : polys.isEmpty = true
      · simp [isValidGeometry, hemp] at h
      · have hne : polys.isEmpty = false := Bool.not_eq_true _ ▸ by
          simpa using hemp
        have hall : polys.all (fun poly => !poly.isEmpty && poly.all ringSpecOk)
            = true := by
          have := h
          simpa [isValidGeometry, hne, processPolygons_fst] using this
        simp [isValidGeometry, hne, processPolygons_of_ok polys hall,
          specNormalizeGeometry]

/-- Witness for C10: a polygon with one tolerated out-of-range longitude
(180.05, clamped to 180) and an unclosed ring gets clamped and closed. -/
theorem claim_C10_mutation_witness :
    (isValidGeometry (Geometry.polygon
      [[[JSNum.fin (3601 / 20), JSNum.fin 0], [JSNum.fin 1, JSNum.fin 0],
        [JSNum.fin 1, JSNum.fin 1], [JSNum.fin (3601 / 20), JSNum.fin 1]]])).2
      = Geometry.polygon
          [[[JSNum.fin 180, JSNum.fin 0], [JSNum.fin 1, JSNum.fin 0],
            [JSNum.fin 1, JSNum.fin 1], [JSNum.fin 180, JSNum.fin 0]]] := by
  have hall : ([[[JSNum.fin (3601 / 20), JSNum.fin 0], [JSNum.fin 1, JSNum.fin 0],
      [JSNum.fin 1, JSNum.fin 1], [JSNum.fin (3601 / 20), JSNum.fin 1]]] :
        List GeoRing).all ringSpecOk = true := by
    simp only [ringSpecOk, isValidCoordinate, List.all_cons, List.all_nil,
      List.length_cons, List.length_nil, Bool.and_eq_true, decide_eq_true_eq]
    norm_num
  rw [claim_C10_mutation (Geometry.polygon
      [[[JSNum.fin (3601 / 20), JSNum.fin 0], [JSNum.fin 1, JSNum.fin 0],
        [JSNum.fin 1, JSNum.fin 1], [JSNum.fin (3601 / 20), JSNum.fin 1]]])
      (by simp [isValidGeometry, processRings_fst, hall])]
  simp only [specNormalizeGeometry, specNormalizeRing, List.map_cons,
    List.map_nil, normalizeCoordinate]
  norm_num [closeRing, coordVal, geoTol, clampLng, clampLat, min_def, max_def]

/-- Accumulated cross-product sum of the centroid loop in getPolygonCentroid:
for consecutive positions (x0, y0), (x1, y1) the loop adds x0 * y1 - x1 * y0.
This is twice the signed shoelace area. -/
def shoelaceSum (ring : List (ℚ × ℚ)) : ℚ :=
  (ring.zip ring.tail).foldl
    (fun s pq => s + (pq.1.1 * pq.2.2 - pq.2.1 * pq.1.2)) 0

/-- Accumulated x moment of the centroid loop: adds (x0 + x1) * a per edge. -/
def shoelaceMomentX (ring : List (ℚ × ℚ)) : ℚ :=
  (ring.zip ring.tail).foldl
    (fun s pq => s + (pq.1.1 + pq.2.1) * (pq.1.1 * pq.2.2 - pq.2.1 * pq.1.2)) 0

/-- Accumulated y moment of the centroid loop: adds (y0 + y1) * a per edge. -/
def shoelaceMomentY (ring : List (ℚ × ℚ)) : ℚ :=
  (ring.zip ring.tail).foldl
    (fun s pq => s + (pq.1.2 + pq.2.2) * (pq.1.1 * pq.2.2 - pq.2.1 * pq.1.2)) 0

/-- Sum of the x components of all ring positions (the fallback reduce). -/
def ringSumX (ring : List (ℚ × ℚ)) : ℚ := ring.foldl (fun s c => s + c.1) 0

/-- Sum of the y components of all ring positions (the fallback reduce). -/
def ringSumY (ring : List (ℚ × ℚ)) : ℚ := ring.foldl (fun s c => s + c.2) 0

/-- `getPolygonCentroid` from the MapView component, over rationals. The
loop accumulators are the shoelace sums above; the fallback divides the sums
of all positions by (ring.length - 1); the main branch halves the
accumulated area, divides the moments by 6 times it, and clamps the result
to geographic bounds. Degenerate inputs (no first ring or fewer than 4
positions) yield (0, 0). -/
def getPolygonCentroid (coordinates : List (List (ℚ × ℚ))) : ℚ × ℚ :=
  match coordinates.head? with
  | none => (0, 0)
  | some ring =>
      if ring.length < 4 then (0, 0)
      else
        let area := shoelaceSum ring
        if |area| < 1 / 10 ^ 10 then
          (ringSumX ring / ((ring.length : ℚ) - 1),
           ringSumY ring / ((ring.length : ℚ) - 1))
        else
          let area2 := area * (1 / 2)
          (clampLng (shoelaceMomentX ring / (6 * area2)),
           clampLat (shoelaceMomentY ring / (6 * area2)))

/-- Signed shoelace area, in the words of the spec. -/
def shoelaceArea (ring : List (ℚ × ℚ)) : ℚ := shoelaceSum ring / 2

/-- The signed-area (shoelace-weighted) polygon centroid, in the words of
the spec: moments divided by six times the signed area, unclamped. -/
def shoelaceCentroid (ring : List (ℚ × ℚ)) : ℚ × ℚ :=
  (shoelaceMomentX ring / (6 * shoelaceArea ring),
   shoelaceMomentY ring / (6 * shoelaceArea ring))

/-- Arithmetic mean of the ring positions, in the words of the claim. -/
def ringPointMean (ring : List (ℚ × ℚ)) : ℚ × ℚ :=
  (ringSumX ring / (ring.length : ℚ), ringSumY ring / (ring.length : ℚ))

lemma clampLng_bounds (q : ℚ) : -180 ≤ clampLng q ∧ clampLng q ≤ 180 :=
  ⟨le_max_left _ _, max_le (by norm_num) (min_le_left _ _)⟩

lemma clampLat_bounds (q : ℚ) : -90 ≤ clampLat q ∧ clampLat q ≤ 90 :=
  ⟨le_max_left _ _, max_le (by norm_num) (min_le_left _ _)⟩

/-- C7 counterexample: a plain square translated to (1000, 1000), far outside
geographic bounds. Its shoelace area is 4, well above the 1e-10 threshold,
its shoelace centroid is (1001, 1001), but getPolygonCentroid clamps and
returns (180, 90). -/
theorem claim_C7_counterexample :
    (1 / 10 ^ 10 : ℚ) ≤
      |shoelaceArea [((1000 : ℚ), (1000 : ℚ)), (1002, 1000), (1002, 1002),
        (1000, 1002), (1000, 1000)]| ∧
    getPolygonCentroid [[((1000 : ℚ), (1000 : ℚ)), (1002, 1000), (1002, 1002),
        (1000, 1002), (1000, 1000)]] = (180, 90) ∧
    shoelaceCentroid [((1000 : ℚ), (1000 : ℚ)), (1002, 1000), (1002, 1002),
        (1000, 1002), (1000, 1000)] = (1001, 1001) := by
  refine ⟨?_, ?_, ?_⟩ <;>
    norm_num [shoelaceArea, shoelaceSum, shoelaceMomentX, shoelaceMomentY,
      shoelaceCentroid, getPolygonCentroid, clampLng, clampLat, min_def,
      max_def, Prod.ext_iff]

/-- C7 (amended): for every first ring with at least 4 positions and shoelace
area magnitude at least 1e-10, getPolygonCentroid returns the signed-area
shoelace centroid clamped to longitude [-180, 180] and latitude [-90, 90]. -/
theorem claim_C7_centroid (coordinates : List (List (ℚ × ℚ)))
    (ring : List (ℚ × ℚ)) (hhead : coordinates.head? = some ring)
    (hlen : 4 ≤ ring.length)
    (harea : (1 / 10 ^ 10 : ℚ) ≤ |shoelaceArea ring|) :
    getPolygonCentroid coordinates
      = (clampLng (shoelaceCentroid ring).1, clampLat (shoelaceCentroid ring).2) := by
  have htolpos : (0 : ℚ) < 1 / 10 ^ 10 := by norm_num
  have habs : |shoelaceSum ring| = 2 * |shoelaceArea ring| := by
    rw [shoelaceArea, abs_div, abs_two]
    ring
  have hsum : ¬ (|shoelaceSum ring| < 1 / 10 ^ 10) := by
    rw [habs]
    push_neg
    linarith
  have heq : shoelaceSum ring * (1 / 2) = shoelaceSum ring / 2 := by ring
  simp only [getPolygonCentroid, hhead]
  rw [if_neg (by omega : ¬ ring.length < 4), if_neg hsum]
  simp only [shoelaceCentroid, shoelaceArea, heq]

/-- Witness for C7: the unit-square example from the spec, centroid (1, 1). -/
theorem claim_C7_centroid_witness :
    getPolygonCentroid [[((0 : ℚ), (0 : ℚ)), (2, 0), (2, 2), (0, 2), (0, 0)]]
      = (1, 1) := by
  rw [claim_C7_centroid
    [[((0 : ℚ), (0 : ℚ)), (2, 0), (2, 2), (0, 2), (0, 0)]]
    [((0 : ℚ), (0 : ℚ)), (2, 0), (2, 2), (0, 2), (0, 0)] rfl
    (by norm_num)
    (by norm_num [shoelaceArea, shoelaceSum])]
  norm_num [shoelaceCentroid, shoelaceArea, shoelaceSum, shoelaceMomentX,
    shoelaceMomentY, clampLng, clampLat, min_def, max_def, Prod.ext_iff]

/-- C8 counterexample: the constant ring of four copies of (180, 90), a valid
geographic degenerate ring. The fallback applies, but the result (240, 120)
is neither the arithmetic mean (180, 90) of the ring positions nor within
geographic bounds, because the code sums all positions yet divides by one
less than their number and does not clamp this branch. -/
theorem claim_C8_counterexample :
    |shoelaceSum [((180 : ℚ), (90 : ℚ)), (180, 90), (180, 90), (180, 90)]|
        < 1 / 10 ^ 10 ∧
    getPolygonCentroid [[((180 : ℚ), (90 : ℚ)), (180, 90), (180, 90), (180, 90)]]
        = (240, 120) ∧
    ringPointMean [((180 : ℚ), (90 : ℚ)), (180, 90), (180, 90), (180, 90)]
        = (180, 90) ∧
    ¬ ((240 : ℚ) ≤ 180) := by
  refine ⟨?_, ?_, ?_, by norm_num⟩ <;>
    norm_num [shoelaceSum, getPolygonCentroid, ringPointMean, ringSumX,
      ringSumY, Prod.ext_iff]

/-- C8 (amended): when the accumulated area magnitude is below 1e-10 the
result is the coordinate-wise sum of all ring positions divided by one less
than the number of positions, without clamping; in every other case
(including the degenerate (0, 0) returns) the result lies within longitude
[-180, 180] and latitude [-90, 90]. -/
theorem claim_C8_fallback (coordinates : List (List (ℚ × ℚ))) :
    (∀ ring : List (ℚ × ℚ), coordinates.head? = some ring → 4 ≤ ring.length →
       |shoelaceSum ring| < 1 / 10 ^ 10 →
       getPolygonCentroid coordinates
         = (ringSumX ring / ((ring.length : ℚ) - 1),
            ringSumY ring / ((ring.length : ℚ) - 1))) ∧
    ((∀ ring : List (ℚ × ℚ), coordinates.head? = some ring → 4 ≤ ring.length →
        (1 / 10 ^ 10 : ℚ) ≤ |shoelaceSum ring|) →
      -180 ≤ (getPolygonCentroid coordinates).1 ∧
      (getPolygonCentroid coordinates).1 ≤ 180 ∧
      -90 ≤ (getPolygonCentroid coordinates).2 ∧
      (getPolygonCentroid coordinates).2 ≤ 90) := by
  constructor
  · intro ring hhead hlen hlow
    simp only [getPolygonCentroid, hhead]
    rw [if_neg (by omega : ¬ ring.length < 4), if_pos hlow]
  · intro hnf
    cases hx : coordinates.head? with
    | none =>
        simp only [getPolygonCentroid, hx]
        norm_num
    | some ring =>
        by_cases hlen : ring.length < 4
        · simp only [getPolygonCentroid, hx]
          rw [if_pos hlen]
          norm_num
        · have hge := hnf ring hx (Nat.not_lt.mp hlen)
          simp only [getPolygonCentroid, hx]
          rw [if_neg hlen, if_neg (not_lt.mpr hge)]
          exact ⟨(clampLng_bounds _).1, (clampLng_bounds _).2,
            (clampLat_bounds _).1, (clampLat_bounds _).2⟩

/-- Witness for C8: the degenerate ring of four copies of (180, 90) falls
back to the sum of positions divided by 3, giving (240, 120). -/
theorem claim_C8_fallback_witness :
    getPolygonCentroid [[((180 : ℚ), (90 : ℚ)), (180, 90), (180, 90), (180, 90)]]
      = (240, 120) := by
  rw [(claim_C8_fallback
      [[((180 : ℚ), (90 : ℚ)), (180, 90), (180, 90), (180, 90)]]).1
    [((180 : ℚ), (90 : ℚ)), (180, 90), (180, 90), (180, 90)] rfl
    (by norm_num) (by norm_num [shoelaceSum])]
  norm_num [ringSumX, ringSumY, Prod.ext_iff]

/-- Program counter of one getOrderedPlots call, split at its await points:
`start` before the first statement runs, `waiting` inside the busy-poll loop
awaiting a timer, `fetching` after issuing the network request and awaiting
its response, `finished r` after returning r. -/
inductive CallPC where
  | start
  | waiting
  | fetching
  | finished (result : List OrderedPlot)
deriving DecidableEq

/-- Shared state of two concurrent getOrderedPlots calls (indexed by Bool).
`cacheFresh` stands for the isCacheValid() timestamp test; the scenario of
the claim runs within 30 seconds of the successful fetch, so a successful
cache update keeps the cache valid for the remainder of the run and the
initial cache is stale. `requests` counts issued network requests. -/
structure FlightState where
  cache : List OrderedPlot
  cacheFresh : Bool
  isLoading : Bool
  requests : Nat
  pcs : Bool → CallPC

/-- Replace the program counter of call i. -/
def setPC (s : FlightState) (i : Bool) (pc : CallPC) : FlightState :=
  { s with pcs := fun j => if j = i then pc else s.pcs j }

/-- The synchronous tail of the fetch-issuing segment: mark isLoading, count
one network request, and suspend call i on the fetch. -/
def issueFetch (s : FlightState) (i : Bool) : FlightState :=
  { cache := s.cache, cacheFresh := s.cacheFresh, isLoading := true,
    requests := s.requests + 1,
    pcs := fun j => if j = i then CallPC.fetching else s.pcs j }

/-- The fetch-completion segment of call i: store the payload, stamp the
cache (it stays within its 30 second window for this run), clear isLoading
in the finally block, and return the payload. -/
def completeFetch (s : FlightState) (i : Bool) (d : List OrderedPlot) : FlightState :=
  { cache := d, cacheFresh := true, isLoading := false, requests := s.requests,
    pcs := fun j => if j = i then CallPC.finished d else s.pcs j }

/-- One atomic segment of one call, under the run-to-completion semantics of
the JS event loop: code between two awaits runs without interleaving. `d` is
the payload of the (successful) fetch. The segments follow the source: the
entry segment returns the cache when valid, enters the poll loop when a
fetch is in flight, and otherwise sets isLoading and issues the fetch; a
poll iteration re-awaits while isLoading holds and otherwise re-checks cache
validity before either returning the cache or fetching itself; the fetch
completion segment stores the payload, stamps the cache and clears
isLoading. -/
inductive FlightStep (d : List OrderedPlot) : FlightState → FlightState → Prop where
  | startHit (s : FlightState) (i : Bool) :
      s.pcs i = .start → s.cacheFresh = true →
      FlightStep d s (setPC s i (.finished s.cache))
  | startWait (s : FlightState) (i : Bool) :
      s.pcs i = .start → s.cacheFresh = false → s.isLoading = true →
      FlightStep d s (setPC s i .waiting)
  | startFetch (s : FlightState) (i : Bool) :
      s.pcs i = .start → s.cacheFresh = false → s.isLoading = false →
      FlightStep d s (issueFetch s i)
  | waitPoll (s : FlightState) (i : Bool) :
      s.pcs i = .waiting → s.isLoading = true →
      FlightStep d s s
  | waitHit (s : FlightState) (i : Bool) :
      s.pcs i = .waiting → s.isLoading = false → s.cacheFresh = true →
      FlightStep d s (setPC s i (.finished s.cache))
  | waitFetch (s : FlightState) (i : Bool) :
      s.pcs i = .waiting → s.isLoading = false → s.cacheFresh = false →
      FlightStep d s (issueFetch s i)
  | fetchDone (s : FlightState) (i : Bool) :
      s.pcs i = .fetching →
      FlightStep d s (completeFetch s i d)

/-- Initial state for the scenario of the claim: stale cache contents c0, no
fetch in flight, both calls about to run. -/
def initFlight (c0 : List OrderedPlot) : FlightState :=
  { cache := c0, cacheFresh := false, isLoading := false, requests := 0,
    pcs := fun _ => .start }

/-- States reachable by interleaving the two calls from the initial state. -/
inductive FlightReachable (d c0 : List OrderedPlot) : FlightState → Prop where
  | init : FlightReachable d c0 (initFlight c0)
  | step (s t : FlightState) :
      FlightReachable d c0 s → FlightStep d s t → FlightReachable d c0 t

/-- The inductive invariant of the single-flight protocol: the request count
is accounted for by the isLoading flag and the cache freshness; isLoading
holds exactly when some call is fetching; at most one call fetches at a
time; a fetch is only in flight while the cache is stale; a fresh cache
holds the payload; and a finished call saw a fresh cache and returned the
payload. -/
def FlightInv (d : List OrderedPlot) (s : FlightState) : Prop :=
  (s.requests = (if s.isLoading then 1 else 0) + (if s.cacheFresh then 1 else 0)) ∧
  (s.isLoading = true ↔ ∃ i, s.pcs i = .fetching) ∧
  (∀ i j, s.pcs i = .fetching → s.pcs j = .fetching → i = j) ∧
  (∀ i, s.pcs i = .fetching → s.cacheFresh = false) ∧
  (s.cacheFresh = true → s.cache = d) ∧
  (∀ i r, s.pcs i = .finished r → s.cacheFresh = true ∧ r = d)

lemma flightInv_init (d c0 : List OrderedPlot) : FlightInv d (initFlight c0) := by
  refine ⟨rfl, ?_, ?_, ?_, ?_, ?_⟩
  · simp [initFlight]
  · intro i j hi
    simp [initFlight] at hi
  · intro i hi
    simp [initFlight] at hi
  · intro h
    simp [initFlight] at h
  · intro i r hi
    simp [initFlight] at hi

lemma setPC_pcs_self (s : FlightState) (i : Bool) (pc : CallPC) :
    (setPC s i pc).pcs i = pc := by simp [setPC]

lemma setPC_pcs_other (s : FlightState) (i : Bool) (pc : CallPC) (j : Bool)
    (h : j ≠ i) : (setPC s i pc).pcs j = s.pcs j := by simp [setPC, h]

lemma flightInv_step (d : List OrderedPlot) (s t : FlightState)
    (hinv : FlightInv d s) (hstep : FlightStep d s t) : FlightInv d t := by
  obtain ⟨h1, h2, h3, h4, h5, h6⟩ := hinv
  cases hstep with
  | startHit i hpc hfresh =>
      have hpcs : ∀ j : Bool, (setPC s i (.finished s.cache)).pcs j = .fetching ↔
          s.pcs j = .fetching := by
        intro j
        by_cases hj : j = i
        · subst hj
          rw [setPC_pcs_self]
          simp [hpc]
        · rw [setPC_pcs_other s i _ j hj]
      refine ⟨h1, ?_, ?_, ?_, h5, ?_⟩
      · rw [show (setPC s i (CallPC.finished s.cache)).isLoading = s.isLoading
          from rfl, h2]
        exact ⟨fun ⟨j, hj⟩ => ⟨j, (hpcs j).mpr hj⟩, fun ⟨j, hj⟩ => ⟨j, (hpcs j).mp hj⟩⟩
      · intro a b ha hb
        exact h3 a b ((hpcs a).mp ha) ((hpcs b).mp hb)
      · intro a ha
        exact h4 a ((hpcs a).mp ha)
      · intro a r ha
        by_cases haj : a = i
        · subst haj
          rw [setPC_pcs_self] at ha
          cases ha
          exact ⟨hfresh, h5 hfresh⟩
        · rw [setPC_pcs_other s i _ a haj] at ha
          exact h6 a r ha
  | startWait i hpc hfresh hload =>
      have hpcs : ∀ j : Bool, (setPC s i .waiting).pcs j = .fetching ↔
          s.pcs j = .fetching := by
        intro j
        by_cases hj : j = i
        · subst hj
          rw [setPC_pcs_self]
          simp [hpc]
        · rw [setPC_pcs_other s i _ j hj]
      refine ⟨h1, ?_, ?_, ?_, h5, ?_⟩
      · rw [show (setPC s i CallPC.waiting).isLoading = s.isLoading from rfl, h2]
        exact ⟨fun ⟨j, hj⟩ => ⟨j, (hpcs j).mpr hj⟩, fun ⟨j, hj⟩ => ⟨j, (hpcs j).mp hj⟩⟩
      · intro a b ha hb
        exact h3 a b ((hpcs a).mp ha) ((hpcs b).mp hb)
      · intro a ha
        exact h4 a ((hpcs a).mp ha)
      · intro a r ha
        by_cases haj : a = i
        · subst haj
          rw [setPC_pcs_self] at ha
          cases ha
        · rw [setPC_pcs_other s i _ a haj] at ha
          exact h6 a r ha
  | startFetch i hpc hfresh hload =>
      have hnof : ∀ j : Bool, s.pcs j ≠ .fetching := by
        intro j hj
        have hl : s.isLoading = true := h2.mpr ⟨j, hj⟩
        rw [hload] at hl
        cases hl
      refine ⟨?_, ?_, ?_, ?_, ?_, ?_⟩
      · simp only [issueFetch]
        rw [h1, hload]
        simp [hfresh]
      · constructor
        · intro _
          refine ⟨i, ?_⟩
          simp [issueFetch]
        · intro _
          rfl
      · intro a b ha hb
        simp only [issueFetch] at ha hb
        by_cases haj : a = i
        · by_cases hbj : b = i
          · rw [haj, hbj]
          · rw [if_neg hbj] at hb
            exact absurd hb (hnof b)
        · rw [if_neg haj] at ha
          exact absurd ha (hnof a)
      · intro a _
        exact hfresh
      · intro hf
        have hf' : s.cacheFresh = true := hf
        rw [hfresh] at hf'
        cases hf'
      · intro a r ha
        simp only [issueFetch] at ha
        by_cases hai : a = i
        · rw [if_pos hai] at ha
          cases ha
        · rw [if_neg hai] at ha
          have hfr := (h6 a r ha).1
          rw [hfresh] at hfr
          cases hfr
  | waitPoll i hpc hload =>
      exact ⟨h1, h2, h3, h4, h5, h6⟩
  | waitHit i hpc hload hfresh =>
      have hpcs : ∀ j : Bool, (setPC s i (.finished s.cache)).pcs j = .fetching ↔
          s.pcs j = .fetching := by
        intro j
        by_cases hj : j = i
        · subst hj
          rw [setPC_pcs_self]
          simp [hpc]
        · rw [setPC_pcs_other s i _ j hj]
      refine ⟨h1, ?_, ?_, ?_, h5, ?_⟩
      · rw [show (setPC s i (CallPC.finished s.cache)).isLoading = s.isLoading
          from rfl, h2]
        exact ⟨fun ⟨j, hj⟩ => ⟨j, (hpcs j).mpr hj⟩, fun ⟨j, hj⟩ => ⟨j, (hpcs j).mp hj⟩⟩
      · intro a b ha hb
        exact h3 a b ((hpcs a).mp ha) ((hpcs b).mp hb)
      · intro a ha
        exact h4 a ((hpcs a).mp ha)
      · intro a r ha
        by_cases haj : a = i
        · subst haj
          rw [setPC_pcs_self] at ha
          cases ha
          exact ⟨hfresh, h5 hfresh⟩
        · rw [setPC_pcs_other s i _ a haj] at ha
          exact h6 a r ha
  | waitFetch i hpc hload hfresh =>
      have hnof : ∀ j : Bool, s.pcs j ≠ .fetching := by
        intro j hj
        have hl : s.isLoading = true := h2.mpr ⟨j, hj⟩
        rw [hload] at hl
        cases hl
      refine ⟨?_, ?_, ?_, ?_, ?_, ?_⟩
      · simp only [issueFetch]
        rw [h1, hload]
        simp [hfresh]
      · constructor
        · intro _
          refine ⟨i, ?_⟩
          simp [issueFetch]
        · intro _
          rfl
      · intro a b ha hb
        simp only [issueFetch] at ha hb
        by_cases haj : a = i
        · by_cases hbj : b = i
          · rw [haj, hbj]
          · rw [if_neg hbj] at hb
            exact absurd hb (hnof b)
        · rw [if_neg haj] at ha
          exact absurd ha (hnof a)
      · intro a _
        exact hfresh
      · intro hf
        have hf' : s.cacheFresh = true := hf
        rw [hfresh] at hf'
        cases hf'
      · intro a r ha
        simp only [issueFetch] at ha
        by_cases hai : a = i
        · rw [if_pos hai] at ha
          cases ha
        · rw [if_neg hai] at ha
          have hfr := (h6 a r ha).1
          rw [hfresh] at hfr
          cases hfr
  | fetchDone i hpc =>
      have hload : s.isLoading = true := h2.mpr ⟨i, hpc⟩
      have hfresh : s.cacheFresh = false := h4 i hpc
      have hnof : ∀ j : Bool, (completeFetch s i d).pcs j ≠ .fetching := by
        intro j hj
        simp only [completeFetch] at hj
        by_cases hji : j = i
        · rw [if_pos hji] at hj
          cases hj
        · rw [if_neg hji] at hj
          exact hji (h3 j i hj hpc)
      refine ⟨?_, ?_, ?_, ?_, ?_, ?_⟩
      · simp only [completeFetch]
        rw [h1, hload]
        simp [hfresh]
      · constructor
        · intro hf
          cases hf
        · intro ⟨j, hj⟩
          exact absurd hj (hnof j)
      · intro a b ha _
        exact absurd ha (hnof a)
      · intro a ha
        exact absurd ha (hnof a)
      · intro _
        rfl
      · intro a r ha
        simp only [completeFetch] at ha
        by_cases hai : a = i
        · rw [if_pos hai] at ha
          cases ha
          exact ⟨rfl, rfl⟩
        · rw [if_neg hai] at ha
          have hfr := (h6 a r ha).1
          rw [hfresh] at hfr
          cases hfr

lemma flightInv_reachable (d c0 : List OrderedPlot) (s : FlightState)
    (h : FlightReachable d c0 s) : FlightInv d s := by
  induction h with
  | init => exact flightInv_init d c0
  | step s t _ hstep ih => exact flightInv_step d s t ih hstep

/-- C9: in every interleaving of two concurrent getOrderedPlots calls that
start with a stale cache and whose fetch succeeds within the 30 second cache
window, at most one network request is ever issued, and any call that has
returned did so after exactly one request, returning the cached payload of
the successful fetch (the call that arrives while the fetch is in flight
waits, re-checks cache validity, and takes the cached result). -/
theorem claim_C9_single_flight (d c0 : List OrderedPlot) (s : FlightState)
    (h : FlightReachable d c0 s) :
    s.requests ≤ 1 ∧
    ∀ (i : Bool) (r : List OrderedPlot), s.pcs i = CallPC.finished r →
      s.requests = 1 ∧ r = d := by
  obtain ⟨h1, h2, h3, h4, h5, h6⟩ := flightInv_reachable d c0 s h
  constructor
  · by_cases hl : s.isLoading = true
    · obtain ⟨j, hj⟩ := h2.mp hl
      have hfr := h4 j hj
      rw [h1, hl, hfr]
      simp
    · have hl' : s.isLoading = false := by
        simpa using hl
      rw [h1, hl']
      by_cases hf : s.cacheFresh = true
      · rw [hf]
        simp
      · have hf' : s.cacheFresh = false := by
          simpa using hf
        rw [hf']
        simp
  · intro i r hfin
    obtain ⟨hfresh, hrd⟩ := h6 i r hfin
    have hload : s.isLoading = false := by
      by_cases hl : s.isLoading = true
      · obtain ⟨j, hj⟩ := h2.mp hl
        have hfr := h4 j hj
        rw [hfresh] at hfr
        cases hfr
      · simpa using hl
    refine ⟨?_, hrd⟩
    rw [h1, hload, hfresh]
    simp

/-- The payload used in the concrete two-call demonstration run. -/
def flightDemoPayload : List OrderedPlot :=
  [⟨"p1", "Alice", OrderStatus.pending, "2024-01-01"⟩]

/-- State after call one issues the only fetch of the run. -/
def flightDemo1 : FlightState := issueFetch (initFlight []) true

/-- State after call two arrives during the in-flight fetch and waits. -/
def flightDemo2 : FlightState := setPC flightDemo1 false CallPC.waiting

/-- State after the fetch of call one completes successfully. -/
def flightDemo3 : FlightState := completeFetch flightDemo2 true flightDemoPayload

/-- Final state: call two wakes, finds the cache valid, and returns it. -/
def flightDemo4 : FlightState := setPC flightDemo3 false (CallPC.finished flightDemo3.cache)

/-- Witness for C9: in the run where call one fetches, call two waits, the
fetch completes and call two then takes the cache, both calls finish with
the payload and exactly one request was issued. -/
theorem claim_C9_single_flight_witness :
    FlightReachable flightDemoPayload [] flightDemo4 ∧
    flightDemo4.requests = 1 ∧
    flightDemo4.pcs false = CallPC.finished flightDemoPayload ∧
    flightDemo4.pcs true = CallPC.finished flightDemoPayload := by
  have hreach : FlightReachable flightDemoPayload [] flightDemo4 :=
    FlightReachable.step flightDemo3 flightDemo4
      (FlightReachable.step flightDemo2 flightDemo3
        (FlightReachable.step flightDemo1 flightDemo2
          (FlightReachable.step (initFlight []) flightDemo1
            FlightReachable.init
            (FlightStep.startFetch (initFlight []) true rfl rfl rfl))
          (FlightStep.startWait flightDemo1 false rfl rfl rfl))
        (FlightStep.fetchDone flightDemo2 true rfl))
      (FlightStep.waitHit flightDemo3 false rfl rfl rfl)
  refine ⟨hreach, ?_, rfl, rfl⟩
  exact ((claim_C9_single_flight flightDemoPayload [] flightDemo4 hreach).2
    false flightDemoPayload rfl).1
